import Mathlib

/-!
# Verification of `pcireg` (src/main.cpp)

A shallow embedding, in Lean 4, of the register-access core of the `pcireg`
command-line tool, together with theorems settling the specification claims.

Conventions of the embedding:

* C machine integers are modelled as `Nat` with explicit `% 2 ^ 32`
  (resp. `% 2 ^ 64`) wherever the C code truncates to `uint32_t`
  (resp. `uint64_t`).
* The C code performs variable-count shifts on 32-bit operands
  (`1 << width`, `mask << pos`, `currentValue >> pos`).  When the count
  reaches 32 this is undefined behaviour in C; the compiled program executes
  a hardware shift instruction, and on both targets the source addresses
  (x86-64 and AArch64, per its `#ifdef __aarch64__`) the hardware uses the
  shift count modulo 32 for 32-bit operands.  Those shifts are therefore
  modelled with the count taken `% 32`.
* Device memory is modelled as a function `Nat → Nat` from byte addresses to
  the 32-bit word stored at that address; a store is a function update.
  `writeRegister` is additionally described by its ordered list of stores, so
  that store ordering is visible in the model.
* Fallible operations (`execute`'s address check, symbol lookup, command-line
  parsing) return `Except`; the `error` case models the thrown
  `runtime_error` or, for the command line, the `showHelp()` path
  (which prints usage and exits with code 1).
-/

/-! ## Register codec (src/main.cpp lines 596–653)

`readField`/`writeField` operate on the 32-bit word currently stored in the
register; the embedding takes that word (`currentValue`) as an argument and,
for `writeField`, returns the word stored back.
-/

/-- `(fieldSpec >> 24) & 0xFF` — the bit-field's width byte. -/
def fieldWidth (fieldSpec : Nat) : Nat := (fieldSpec >>> 24) &&& 0xFF

/-- `(fieldSpec >> 16) & 0xFF` — the position of the field's right-most bit. -/
def fieldPos (fieldSpec : Nat) : Nat := (fieldSpec >>> 16) &&& 0xFF

/-- `uint32_t mask = (1 << width) - 1;` computed in 32-bit arithmetic.
The shift count is taken modulo 32 (hardware behaviour of the undefined
`1 << 32` case, see the header comment). -/
def fieldMask (width : Nat) : Nat := ((1 <<< (width % 32)) - 1) % 2 ^ 32

/-- `readField` (src/main.cpp lines 635–652), as a function of the 32-bit
word `currentValue` held in the register: extract width/pos/mask from
`fieldSpec`, then return `(currentValue >> pos) & mask`. -/
def readField (currentValue fieldSpec : Nat) : Nat :=
  let width := fieldWidth fieldSpec
  let pos := fieldPos fieldSpec
  let mask := fieldMask width
  (currentValue >>> (pos % 32)) &&& mask

/-- `writeField` (src/main.cpp lines 599–625), as a function returning the
32-bit word stored back into the register: clear the field's bits of
`currentValue` (`& ~(mask << pos)`, with `~` on a 32-bit value modelled as
`^^^ (2^32 - 1)`), then or-in `((uint32_t)(data & mask)) << pos`. -/
def writeField (currentValue data fieldSpec : Nat) : Nat :=
  let width := fieldWidth fieldSpec
  let pos := fieldPos fieldSpec
  let mask := fieldMask width
  let maskedData := (data &&& mask) % 2 ^ 32
  let newValue := currentValue &&& (((mask <<< (pos % 32)) % 2 ^ 32) ^^^ (2 ^ 32 - 1))
  (newValue ||| ((maskedData <<< (pos % 32)) % 2 ^ 32)) % 2 ^ 32

/-- The packed field-descriptor encoding (spec §3): width in bits `[31:24]`,
position in bits `[23:16]`. -/
def mkFieldSpec (width pos : Nat) : Nat := width * 2 ^ 24 + pos * 2 ^ 16

/-! ## Whole-register access (src/main.cpp lines 550–592) -/

/-- The ordered list of `(byte address, 32-bit word)` stores performed by
`writeRegister` (src/main.cpp lines 556–566): in wide mode, first
`(uint32_t)(data >> 32)` at `axi_addr`, then `(uint32_t)(data & 0xFFFFFFFF)`
at `axi_addr + 4`; otherwise only the low word at `axi_addr`. -/
def writeRegisterStores (axi_addr data : Nat) (wide : Bool) : List (Nat × Nat) :=
  if wide then
    [(axi_addr, (data >>> 32) % 2 ^ 32), (axi_addr + 4, (data &&& 0xFFFFFFFF) % 2 ^ 32)]
  else
    [(axi_addr, (data &&& 0xFFFFFFFF) % 2 ^ 32)]

/-- Apply a list of stores to a memory, left to right (earlier stores first). -/
def applyStores (mem : Nat → Nat) : List (Nat × Nat) → (Nat → Nat)
  | [] => mem
  | (a, v) :: rest => applyStores (fun x => if x = a then v else mem x) rest

/-- `writeRegister` (src/main.cpp lines 556–566) as a memory transformer. -/
def writeRegister (mem : Nat → Nat) (axi_addr data : Nat) (wide : Bool) : Nat → Nat :=
  applyStores mem (writeRegisterStores axi_addr data wide)

/-- `readRegister` (src/main.cpp lines 576–591): in wide mode the word at the
lower address is the high half, the word at `axi_addr + 4` the low half. -/
def readRegister (mem : Nat → Nat) (axi_addr : Nat) (wide : Bool) : Nat :=
  if wide then
    let hi := mem axi_addr
    let lo := mem (axi_addr + 4)
    (hi <<< 32) ||| lo
  else
    mem axi_addr

/-! ## Claim C1 -/

/-- **C1** (code bug, evaluated at the failing input): for the descriptor
`0x20000000` (width = 32, position = 0) the mask the code computes is `0`,
not all-ones: `readField` returns `0` instead of the full register value
`0xDEADBEEF`, and `writeField` leaves the register unchanged instead of
replacing it with the written data.  The code computes the mask as
`(1 << width) - 1` in 32-bit arithmetic with no widened intermediate, so at
`width == 32` the shift count wraps to 0. -/
theorem c1_width32_mask_is_zero :
    fieldWidth 0x20000000 = 32 ∧
    fieldMask 32 = 0 ∧
    readField 0xDEADBEEF 0x20000000 = 0 ∧
    writeField 0xDEADBEEF 0x12345678 0x20000000 = 0xDEADBEEF ∧
    readField 0xDEADBEEF 0x20000000 ≠ 0xDEADBEEF ∧
    writeField 0xDEADBEEF 0x12345678 0x20000000 ≠ 0x12345678 := by
  refine ⟨by decide, by decide, by decide, by decide, by decide, by decide⟩

/-! ## Field-descriptor helper lemmas -/

theorem fieldWidth_mkFieldSpec {w p : Nat} (hw : w ≤ 255) (hp : p ≤ 255) :
    fieldWidth (mkFieldSpec w p) = w := by
  unfold fieldWidth mkFieldSpec
  rw [Nat.shiftRight_eq_div_pow]
  have h255 : (0xFF : Nat) = 2 ^ 8 - 1 := by norm_num
  rw [h255, Nat.and_pow_two_sub_one_eq_mod]
  have h24 : (2 : Nat) ^ 24 = 16777216 := by norm_num
  have h16 : (2 : Nat) ^ 16 = 65536 := by norm_num
  have h8 : (2 : Nat) ^ 8 = 256 := by norm_num
  rw [h24, h16, h8]
  omega

theorem fieldPos_mkFieldSpec {w p : Nat} (_hw : w ≤ 255) (hp : p ≤ 255) :
    fieldPos (mkFieldSpec w p) = p := by
  unfold fieldPos mkFieldSpec
  rw [Nat.shiftRight_eq_div_pow]
  have h255 : (0xFF : Nat) = 2 ^ 8 - 1 := by norm_num
  rw [h255, Nat.and_pow_two_sub_one_eq_mod]
  have h24 : (2 : Nat) ^ 24 = 16777216 := by norm_num
  have h16 : (2 : Nat) ^ 16 = 65536 := by norm_num
  have h8 : (2 : Nat) ^ 8 = 256 := by norm_num
  rw [h24, h16, h8]
  omega

theorem fieldMask_eq {w : Nat} (hw : w ≤ 31) : fieldMask w = 2 ^ w - 1 := by
  unfold fieldMask
  rw [Nat.mod_eq_of_lt (show w < 32 by omega), Nat.one_shiftLeft]
  have h1 : (2 : Nat) ^ w ≤ 2 ^ 31 := Nat.pow_le_pow_right (by norm_num) hw
  have h2 : (2 : Nat) ^ 31 < 2 ^ 32 := by norm_num
  exact Nat.mod_eq_of_lt (by omega)

theorem testBit_false_of_lt {x n i : Nat} (hx : x < 2 ^ n) (hi : n ≤ i) :
    x.testBit i = false :=
  Nat.testBit_lt_two_pow
    (Nat.lt_of_lt_of_le hx (Nat.pow_le_pow_right (by norm_num) hi))

/-- Normal form of `writeField` at a well-formed descriptor with
`1 ≤ width ≤ 31` and `position + width ≤ 32`: all the `uint32_t`
truncations are redundant. -/
theorem writeField_eq {w p : Nat} (hw1 : 1 ≤ w) (hw : w ≤ 31) (hpw : p + w ≤ 32)
    (v d : Nat) (hv : v < 2 ^ 32) :
    writeField v d (mkFieldSpec w p) =
      (v &&& (((2 ^ w - 1) <<< p) ^^^ (2 ^ 32 - 1))) ||| ((d % 2 ^ w) <<< p) := by
  have hp : p ≤ 255 := by omega
  have hw255 : w ≤ 255 := by omega
  have hp32 : p < 32 := by omega
  have hwp32 : (2 : Nat) ^ w * 2 ^ p ≤ 2 ^ 32 := by
    rw [← Nat.pow_add]
    exact Nat.pow_le_pow_right (by norm_num) (by omega)
  have hml : (2 ^ w - 1) <<< p < 2 ^ 32 := by
    rw [Nat.shiftLeft_eq]
    have h1 : (2 ^ w - 1) * 2 ^ p < 2 ^ w * 2 ^ p :=
      mul_lt_mul_of_pos_right (Nat.sub_lt (Nat.two_pow_pos w) Nat.one_pos)
        (Nat.two_pow_pos p)
    omega
  have hdw : d % 2 ^ w < 2 ^ 32 := by
    have h1 : d % 2 ^ w < 2 ^ w := Nat.mod_lt _ (Nat.two_pow_pos w)
    have h2 : (2 : Nat) ^ w ≤ 2 ^ 32 := Nat.pow_le_pow_right (by norm_num) (by omega)
    omega
  have hmd : (d % 2 ^ w) <<< p < 2 ^ 32 := by
    rw [Nat.shiftLeft_eq]
    have h1 : d % 2 ^ w < 2 ^ w := Nat.mod_lt _ (Nat.two_pow_pos w)
    have h2 : (d % 2 ^ w) * 2 ^ p < 2 ^ w * 2 ^ p :=
      mul_lt_mul_of_pos_right h1 (Nat.two_pow_pos p)
    omega
  simp only [writeField, fieldWidth_mkFieldSpec hw255 hp, fieldPos_mkFieldSpec hw255 hp,
    fieldMask_eq hw, Nat.mod_eq_of_lt hp32, Nat.and_pow_two_sub_one_eq_mod,
    Nat.mod_eq_of_lt hdw, Nat.mod_eq_of_lt hml, Nat.mod_eq_of_lt hmd]
  have hleft : v &&& (((2 ^ w - 1) <<< p) ^^^ (2 ^ 32 - 1)) < 2 ^ 32 :=
    Nat.lt_of_le_of_lt Nat.and_le_left hv
  exact Nat.mod_eq_of_lt (Nat.or_lt_two_pow hleft hmd)

/-- The bits of the register after `writeField`: the field's bits come from
`data`, every other bit keeps its previous value. -/
theorem writeField_testBit {w p : Nat} (hw1 : 1 ≤ w) (hw : w ≤ 31) (hpw : p + w ≤ 32)
    (v d : Nat) (hv : v < 2 ^ 32) (j : Nat) :
    (writeField v d (mkFieldSpec w p)).testBit j =
      if p ≤ j ∧ j < p + w then d.testBit (j - p) else v.testBit j := by
  rw [writeField_eq hw1 hw hpw v d hv]
  simp only [Nat.testBit_or, Nat.testBit_and, Nat.testBit_xor, Nat.testBit_shiftLeft,
    Nat.testBit_two_pow_sub_one, ge_iff_le]
  rcases Nat.lt_or_ge j p with hj | hj
  · have h1 : ¬(p ≤ j) := by omega
    have h2 : j < 32 := by omega
    have h3 : ¬(p ≤ j ∧ j < p + w) := by omega
    simp [h1, h2, h3]
  · rcases Nat.lt_or_ge j (p + w) with hj2 | hj2
    · have h1 : j - p < w := by omega
      have h2 : j < 32 := by omega
      have h3 : p ≤ j ∧ j < p + w := ⟨hj, hj2⟩
      have h4 : (d % 2 ^ w).testBit (j - p) = d.testBit (j - p) := by
        rw [Nat.testBit_mod_two_pow]
        simp [h1]
      simp [hj, h1, h2, h3, h4]
    · rcases Nat.lt_or_ge j 32 with hj3 | hj3
      · have h1 : ¬(j - p < w) := by omega
        have h3 : ¬(j < p + w) := by omega
        have h4 : (d % 2 ^ w).testBit (j - p) = false :=
          testBit_false_of_lt (Nat.mod_lt _ (Nat.two_pow_pos w)) (by omega)
        simp [hj, h1, hj3, h3, h4]
      · have h1 : ¬(j - p < w) := by omega
        have h3 : ¬(j < p + w) := by omega
        have h4 : (d % 2 ^ w).testBit (j - p) = false :=
          testBit_false_of_lt (Nat.mod_lt _ (Nat.two_pow_pos w)) (by omega)
        have h5 : v.testBit j = false := testBit_false_of_lt hv hj3
        have h6 : ¬(j < 32) := by omega
        simp [hj, h1, h3, h4, h5, h6]

/-! ## Claim C3 -/

/-- **C3** (amended: width restricted to `[1,31]`; at `width == 32` the code's
mask is 0 — see C1): writing a field and reading it back through the same
descriptor returns `data & ((1 << width) - 1)`, for every prior register
value `v < 2^32` and arbitrary data. -/
theorem c3_field_roundtrip (w p v d : Nat) (hw1 : 1 ≤ w) (hw : w ≤ 31)
    (hpw : p + w ≤ 32) (hv : v < 2 ^ 32) :
    readField (writeField v d (mkFieldSpec w p)) (mkFieldSpec w p) =
      d &&& (2 ^ w - 1) := by
  have hp : p ≤ 255 := by omega
  have hw255 : w ≤ 255 := by omega
  apply Nat.eq_of_testBit_eq
  intro i
  simp only [readField, fieldWidth_mkFieldSpec hw255 hp, fieldPos_mkFieldSpec hw255 hp,
    fieldMask_eq hw, Nat.mod_eq_of_lt (show p < 32 by omega)]
  simp only [Nat.testBit_and, Nat.testBit_shiftRight, Nat.testBit_two_pow_sub_one]
  rw [writeField_testBit hw1 hw hpw v d hv (p + i)]
  rcases Nat.lt_or_ge i w with hi | hi
  · have h1 : p ≤ p + i ∧ p + i < p + w := by omega
    simp [h1, hi, Nat.add_sub_cancel_left]
  · have h1 : ¬(p ≤ p + i ∧ p + i < p + w) := by omega
    have h2 : ¬(i < w) := by omega
    simp [h1, h2]

/-- Witness for C3 at width 8, position 4, prior value `0xFFFFFFFF`,
data `0x1AB`. -/
theorem c3_field_roundtrip_witness :
    readField (writeField 0xFFFFFFFF 0x1AB (mkFieldSpec 8 4)) (mkFieldSpec 8 4) =
      0x1AB &&& (2 ^ 8 - 1) :=
  c3_field_roundtrip 8 4 0xFFFFFFFF 0x1AB (by decide) (by decide) (by decide) (by decide)

/-- **C3 counterexample**: as stated the claim includes `width == 32`,
`position == 0` (descriptor `0x20000000`), where the round-trip returns `0`
rather than `data & ((1 << 32) - 1) = data & 0xFFFFFFFF`: at `v = 0`,
`data = 0xFFFFFFFF` the code yields `0 ≠ 0xFFFFFFFF`. -/
theorem c3_width32_counterexample :
    readField (writeField 0 0xFFFFFFFF 0x20000000) 0x20000000 = 0 ∧
    (0xFFFFFFFF : Nat) &&& (2 ^ 32 - 1) = 0xFFFFFFFF ∧
    readField (writeField 0 0xFFFFFFFF 0x20000000) 0x20000000 ≠
      (0xFFFFFFFF : Nat) &&& (2 ^ 32 - 1) := by
  refine ⟨by decide, by decide, by decide⟩

/-! ## Claim C4 -/

/-- **C4**: for every valid descriptor (`width ∈ [1,32]`,
`position ∈ [0, 32-width]`), `writeField` changes only the bits in
`[position, position+width)`: every bit index outside that interval reads
the same before and after the write. -/
theorem c4_writeField_frame (w p v d j : Nat) (hw1 : 1 ≤ w) (hw : w ≤ 32)
    (hpw : p + w ≤ 32) (hv : v < 2 ^ 32) (hj : j < p ∨ p + w ≤ j) :
    (writeField v d (mkFieldSpec w p)).testBit j = v.testBit j := by
  rcases Nat.lt_or_ge w 32 with hw31 | hw32
  · rw [writeField_testBit hw1 (by omega) hpw v d hv j]
    have h1 : ¬(p ≤ j ∧ j < p + w) := by omega
    simp [h1]
  · have hw' : w = 32 := by omega
    have hp' : p = 0 := by omega
    subst hw'; subst hp'
    have h1 : fieldWidth (mkFieldSpec 32 0) = 32 := by decide
    have h2 : fieldPos (mkFieldSpec 32 0) = 0 := by decide
    have h3 : fieldMask 32 = 0 := by decide
    have hkey : writeField v d (mkFieldSpec 32 0) = v := by
      simp only [writeField, h1, h2, h3]
      simp only [Nat.zero_shiftLeft, Nat.and_zero, Nat.zero_mod, Nat.zero_xor,
        Nat.or_zero, Nat.and_pow_two_sub_one_eq_mod, Nat.mod_eq_of_lt hv]
    rw [hkey]

/-- Witness for C4 at width 8, position 8, value `0x12345678`, data `0xAB`,
bit 0 (below the field). -/
theorem c4_writeField_frame_witness :
    (writeField 0x12345678 0xAB (mkFieldSpec 8 8)).testBit 0 =
      (0x12345678 : Nat).testBit 0 :=
  c4_writeField_frame 8 8 0x12345678 0xAB 0 (by decide) (by decide) (by decide)
    (by decide) (Or.inl (by decide))

/-! ## Claims C5, C6: whole-register writes and reads -/

theorem and_ffffffff_eq_mod (x : Nat) : x &&& 0xFFFFFFFF = x % 2 ^ 32 := by
  have h : (0xFFFFFFFF : Nat) = 2 ^ 32 - 1 := by norm_num
  rw [h, Nat.and_pow_two_sub_one_eq_mod]

theorem shiftRight32_lt {x : Nat} (hx : x < 2 ^ 64) : x >>> 32 < 2 ^ 32 := by
  rw [Nat.shiftRight_eq_div_pow]
  apply Nat.div_lt_of_lt_mul
  have h1 : (2 : Nat) ^ 32 * 2 ^ 32 = 2 ^ 64 := by norm_num
  omega

/-- Recombining the two halves of a 64-bit value. -/
theorem shiftLeft_or_recombine {x : Nat} (_hx : x < 2 ^ 64) :
    ((x >>> 32) <<< 32) ||| (x % 2 ^ 32) = x := by
  apply Nat.eq_of_testBit_eq
  intro j
  simp only [Nat.testBit_or, Nat.testBit_shiftLeft, Nat.testBit_shiftRight,
    Nat.testBit_mod_two_pow, ge_iff_le]
  rcases Nat.lt_or_ge j 32 with hj | hj
  · have h1 : ¬(32 ≤ j) := by omega
    simp [h1, hj]
  · have h2 : ¬(j < 32) := by omega
    have h3 : 32 + (j - 32) = j := by omega
    simp [hj, h2, h3]

/-- **C5**: for every 64-bit value `x`, writing with `writeRegister` in wide
mode and reading back with `readRegister` in wide mode at the same address
returns `x`; the high 32-bit word is stored at the lower address
`axi_addr` and the low word at `axi_addr + 4`. -/
theorem c5_wide_roundtrip (mem : Nat → Nat) (axi_addr x : Nat) (hx : x < 2 ^ 64) :
    readRegister (writeRegister mem axi_addr x true) axi_addr true = x ∧
    writeRegister mem axi_addr x true axi_addr = x >>> 32 ∧
    writeRegister mem axi_addr x true (axi_addr + 4) = x % 2 ^ 32 := by
  have hne : axi_addr ≠ axi_addr + 4 := by omega
  have hmemhi : writeRegister mem axi_addr x true axi_addr = x >>> 32 := by
    show (if axi_addr = axi_addr + 4 then (x &&& 0xFFFFFFFF) % 2 ^ 32
          else if axi_addr = axi_addr then (x >>> 32) % 2 ^ 32
          else mem axi_addr) = x >>> 32
    rw [if_neg hne, if_pos rfl]
    exact Nat.mod_eq_of_lt (shiftRight32_lt hx)
  have hmemlo : writeRegister mem axi_addr x true (axi_addr + 4) = x % 2 ^ 32 := by
    show (if axi_addr + 4 = axi_addr + 4 then (x &&& 0xFFFFFFFF) % 2 ^ 32
          else if axi_addr + 4 = axi_addr then (x >>> 32) % 2 ^ 32
          else mem (axi_addr + 4)) = x % 2 ^ 32
    rw [if_pos rfl, and_ffffffff_eq_mod, Nat.mod_mod_of_dvd _ (dvd_refl _)]
  refine ⟨?_, hmemhi, hmemlo⟩
  show (writeRegister mem axi_addr x true axi_addr <<< 32) |||
      writeRegister mem axi_addr x true (axi_addr + 4) = x
  rw [hmemhi, hmemlo]
  exact shiftLeft_or_recombine hx

/-- Witness for C5 at `mem = 0`, `axi_addr = 0`, `x = 0x123456789ABCDEF0`. -/
theorem c5_wide_roundtrip_witness :
    readRegister (writeRegister (fun _ => 0) 0 0x123456789ABCDEF0 true) 0 true =
        0x123456789ABCDEF0 ∧
    writeRegister (fun _ => 0) 0 0x123456789ABCDEF0 true 0 =
        0x123456789ABCDEF0 >>> 32 ∧
    writeRegister (fun _ => 0) 0 0x123456789ABCDEF0 true (0 + 4) =
        0x123456789ABCDEF0 % 2 ^ 32 :=
  c5_wide_roundtrip (fun _ => 0) 0 0x123456789ABCDEF0 (by norm_num)

/-- **C6**: in wide mode `writeRegister` performs exactly two stores, in
order: first `(data >> 32)` truncated to 32 bits at `axi_addr`, then
`data & 0xFFFFFFFF` (the low 32 bits) at `axi_addr + 4`.  In non-wide mode it
performs the single store of the low 32 bits at `axi_addr`, and the word at
`axi_addr + 4` is unchanged. -/
theorem c6_writeRegister_stores (mem : Nat → Nat) (axi_addr data : Nat) :
    writeRegisterStores axi_addr data true =
      [(axi_addr, (data >>> 32) % 2 ^ 32), (axi_addr + 4, data % 2 ^ 32)] ∧
    writeRegisterStores axi_addr data false = [(axi_addr, data % 2 ^ 32)] ∧
    writeRegister mem axi_addr data false axi_addr = data % 2 ^ 32 ∧
    writeRegister mem axi_addr data false (axi_addr + 4) = mem (axi_addr + 4) := by
  refine ⟨?_, ?_, ?_, ?_⟩
  · show [(axi_addr, (data >>> 32) % 2 ^ 32), (axi_addr + 4, (data &&& 0xFFFFFFFF) % 2 ^ 32)] =
        [(axi_addr, (data >>> 32) % 2 ^ 32), (axi_addr + 4, data % 2 ^ 32)]
    rw [and_ffffffff_eq_mod, Nat.mod_mod_of_dvd _ (dvd_refl _)]
  · show [(axi_addr, (data &&& 0xFFFFFFFF) % 2 ^ 32)] = [(axi_addr, data % 2 ^ 32)]
    rw [and_ffffffff_eq_mod, Nat.mod_mod_of_dvd _ (dvd_refl _)]
  · show (if axi_addr = axi_addr then (data &&& 0xFFFFFFFF) % 2 ^ 32
          else mem axi_addr) = data % 2 ^ 32
    rw [if_pos rfl, and_ffffffff_eq_mod, Nat.mod_mod_of_dvd _ (dvd_refl _)]
  · show (if axi_addr + 4 = axi_addr then (data &&& 0xFFFFFFFF) % 2 ^ 32
          else mem (axi_addr + 4)) = mem (axi_addr + 4)
    rw [if_neg (by omega)]

/-! ## Claim C7: the AXI address bounds check -/

/-- The address-validation step of `execute()` (src/main.cpp lines 495–499):
`if (axiAddr >= resource[pciRegion].size) throw runtime_error("illegal AXI
address");`. -/
def checkAxiAddr (axiAddr regionSize : Nat) : Except String Unit :=
  if axiAddr ≥ regionSize then Except.error "illegal AXI address" else Except.ok ()

/-- **C7**: the access fails with the illegal-address error exactly when
`axiAddr ≥ size` (the comparison is `≥`, not `>`): `size - 1` is legal,
`size` is illegal, and in particular address `0xFFFFFFFF` at a region
of size `0xFFFFFFFF` is illegal while `0xFFFFFFFE` is legal. -/
theorem c7_address_bounds_check :
    (∀ axiAddr size : Nat,
        checkAxiAddr axiAddr size = Except.error "illegal AXI address" ↔
          size ≤ axiAddr) ∧
    (∀ axiAddr size : Nat, checkAxiAddr axiAddr size = Except.ok () ↔ axiAddr < size) ∧
    (∀ size : Nat, checkAxiAddr size (size + 1) = Except.ok ()) ∧
    checkAxiAddr 0xFFFFFFFE 0xFFFFFFFF = Except.ok () ∧
    checkAxiAddr 0xFFFFFFFF 0xFFFFFFFF = Except.error "illegal AXI address" := by
  refine ⟨?_, ?_, ?_, ?_, ?_⟩
  · intro a s
    unfold checkAxiAddr
    by_cases h : s ≤ a
    · simp [h]
    · simp [h]
  · intro a s
    unfold checkAxiAddr
    by_cases h : s ≤ a
    · have h2 : ¬(a < s) := by omega
      simp [h, h2]
    · have h2 : a < s := by omega
      simp [h, h2]
  · intro s
    unfold checkAxiAddr
    rw [if_neg (by omega)]
  · show (if (0xFFFFFFFE : Nat) ≥ 0xFFFFFFFF then (Except.error "illegal AXI address" : Except String Unit)
          else Except.ok ()) = Except.ok ()
    rw [if_neg (by norm_num)]
  · show (if (0xFFFFFFFF : Nat) ≥ 0xFFFFFFFF then (Except.error "illegal AXI address" : Except String Unit)
          else Except.ok ()) = Except.error "illegal AXI address"
    rw [if_pos (by norm_num)]

/-! ## Numeric token parsing

`stripUnderscores` / `strToBin32` / `strToBin64` (src/main.cpp lines
274–344) and a model of the C library's `strtoul`/`strtoull` with base 0
(leading whitespace skipped, optional sign, `0x`/`0X` hex prefix, `0` octal
prefix, otherwise decimal; the maximal valid digit prefix is converted and
the result saturates at `ULLONG_MAX` on overflow).  Strings are handled as
`List Char`.
-/

/-- `while (*str == 32 || *str == 9) ++str;` — skip leading spaces and tabs. -/
def skipSpTab : List Char → List Char
  | [] => []
  | c :: rest => if c = ' ' ∨ c = '\t' then skipSpTab rest else c :: rest

/-- The character-copy loop of `stripUnderscores` (src/main.cpp lines
288–304): drop `'_'`, stop at NUL/newline/CR/space/tab, and stop after 91
copied characters (the `(out - token) > 90` guard runs after the copy). -/
def stripUnderscoresAux : List Char → Nat → List Char
  | [], _ => []
  | c :: rest, n =>
    if c = '_' then stripUnderscoresAux rest n
    else if c = '\n' ∨ c = '\r' ∨ c = ' ' ∨ c = '\t' then []
    else if n + 1 > 90 then [c]
    else c :: stripUnderscoresAux rest (n + 1)

/-- `stripUnderscores` (src/main.cpp lines 279–308). -/
def stripUnderscores (s : List Char) : List Char :=
  stripUnderscoresAux (skipSpTab s) 0

/-- `isspace` characters skipped by `strtoul`. -/
def isCSpace (c : Char) : Bool :=
  c = ' ' ∨ c = '\t' ∨ c = '\n' ∨ c = '\x0b' ∨ c = '\x0c' ∨ c = '\r'

def skipCSpace : List Char → List Char
  | [] => []
  | c :: rest => if isCSpace c then skipCSpace rest else c :: rest

/-- The numeric value of a digit character, if valid in `base`. -/
def digitVal (base : Nat) (c : Char) : Option Nat :=
  let v : Option Nat :=
    if '0' ≤ c ∧ c ≤ '9' then some (c.toNat - '0'.toNat)
    else if 'a' ≤ c ∧ c ≤ 'f' then some (c.toNat - 'a'.toNat + 10)
    else if 'A' ≤ c ∧ c ≤ 'F' then some (c.toNat - 'A'.toNat + 10)
    else none
  match v with
  | some d => if d < base then some d else none
  | none => none

/-- Convert the maximal valid-digit prefix, saturating at `ULLONG_MAX`. -/
def parseDigitsAux (base : Nat) : Nat → List Char → Nat
  | acc, [] => acc
  | acc, c :: rest =>
    match digitVal base c with
    | none => acc
    | some d => parseDigitsAux base (min (acc * base + d) (2 ^ 64 - 1)) rest

/-- Base detection of `strtoull(_, _, 0)` on the unsigned subject sequence:
`0x`/`0X` followed by a hex digit means hex, a leading `0` otherwise means
octal, anything else decimal. -/
def strtoullDigits : List Char → Nat
  | '0' :: 'x' :: c :: rest =>
    if (digitVal 16 c).isSome then parseDigitsAux 16 0 (c :: rest)
    else 0
  | '0' :: 'X' :: c :: rest =>
    if (digitVal 16 c).isSome then parseDigitsAux 16 0 (c :: rest)
    else 0
  | '0' :: rest => parseDigitsAux 8 0 rest
  | s => parseDigitsAux 10 0 s

/-- Model of `strtoull(str, nullptr, 0)`: skip `isspace` characters, accept
one optional sign (a minus negates the converted value in `uint64_t`
arithmetic), then convert per `strtoullDigits`. -/
def strtoull0 (s : List Char) : Nat :=
  match skipCSpace s with
  | '-' :: rest => (2 ^ 64 - strtoullDigits rest) % 2 ^ 64
  | '+' :: rest => strtoullDigits rest
  | s' => strtoullDigits s'

/-- `strToBin32` (src/main.cpp lines 317–326): strip underscores, call
`strtoul`, truncate to the `uint32_t` return type. -/
def strToBin32 (s : String) : Nat :=
  strtoull0 (stripUnderscores s.toList) % 2 ^ 32

/-- `strToBin64` (src/main.cpp lines 334–343). -/
def strToBin64 (s : String) : Nat :=
  strtoull0 (stripUnderscores s.toList)

/-! ## Claim C8 -/

/-- **C8**: numeric command-line tokens have underscores stripped before
standard base-prefixed parsing: `"1_000"` parses to `1000`, `"0x1_0"` to
`0x10`, and in general `strToBin32` is literally `strtoul` after
`stripUnderscores`. -/
theorem c8_underscore_stripping :
    strToBin32 "1_000" = 1000 ∧
    strToBin32 "0x1_0" = 0x10 ∧
    strToBin64 "1_000" = 1000 ∧
    strToBin64 "0x1_0" = 0x10 ∧
    (∀ s : String, strToBin32 s = strtoull0 (stripUnderscores s.toList) % 2 ^ 32) ∧
    (∀ s : String, strToBin64 s = strtoull0 (stripUnderscores s.toList)) := by
  refine ⟨by decide, by decide, by decide, by decide, fun s => rfl, fun s => rfl⟩

/-! ## Symbol resolution (src/main.cpp lines 658–725 and 480–493) -/

/-- Whitespace for tokenization purposes. -/
def isTokWs (c : Char) : Bool := c = ' ' ∨ c = '\t' ∨ c = '\n' ∨ c = '\r'

/-- Modelled from the spec: the symbol-file line tokenizer (`tokenizer.h`,
`CTokenizer::parse`, not present under `src/`) is described by the spec only
as "a trivial whitespace/quote-aware line splitter".  Tokens are maximal runs
of non-whitespace characters, except that a double-quoted run forms a single
token without the quotes.  `inQuote` is the quote state and `cur` the
current token, reversed. -/
def tokenizeAux : List Char → Bool → List Char → List String
  | [], _, cur => if cur.isEmpty then [] else [String.mk cur.reverse]
  | c :: rest, true, cur =>
    if c = '"' then String.mk cur.reverse :: tokenizeAux rest false []
    else tokenizeAux rest true (c :: cur)
  | c :: rest, false, cur =>
    if c = '"' then
      if cur.isEmpty then tokenizeAux rest true []
      else String.mk cur.reverse :: tokenizeAux rest true []
    else if isTokWs c then
      if cur.isEmpty then tokenizeAux rest false []
      else String.mk cur.reverse :: tokenizeAux rest false []
    else tokenizeAux rest false (c :: cur)

def tokenize (s : List Char) : List String := tokenizeAux s false []

/-- One iteration of the scan loop of `getSymbolValue` (src/main.cpp lines
679–714): skip spaces/tabs; ignore empty lines, lines starting with a
newline/CR, and `//` comments; tokenize; require exactly 3 tokens with
`#define` first; on a name match return `strtoull(token[2], nullptr, 0)`. -/
def symbolLineValue (symbol : String) (line : String) : Option Nat :=
  let in0 := skipSpTab line.toList
  match in0 with
  | [] => none
  | c :: _ =>
    if c = '\n' ∨ c = '\r' then none
    else if in0.take 2 = ['/', '/'] then none
    else
      match tokenize in0 with
      | [t0, t1, t2] =>
        if t0 = "#define" then
          if t1 = symbol then some (strtoull0 t2.toList) else none
        else none
      | _ => none

/-- `getSymbolValue` (src/main.cpp lines 662–725), over the list of lines of
the already-opened symbol file: first matching line wins; reaching the end
raises the symbol-not-found error. -/
def getSymbolValue (symbol symbolFile : String) (lines : List String) :
    Except String Nat :=
  match lines with
  | [] => Except.error ("pcireg : cant find " ++ symbol ++ " in " ++ symbolFile)
  | line :: rest =>
    match symbolLineValue symbol line with
    | some v => Except.ok v
    | none => getSymbolValue symbol symbolFile rest

/-- The symbol branch of `execute()` (src/main.cpp lines 480–493): the
register address is the low 32 bits of the symbol value, the field specifier
the upper 32 bits, and a field specifier of `0x20000000` is normalized
to `0`. -/
def resolveSymbol (symbol symbolFile : String) (lines : List String) :
    Except String (Nat × Nat) :=
  match getSymbolValue symbol symbolFile lines with
  | Except.error e => Except.error e
  | Except.ok symbolValue =>
    let axiAddr := symbolValue &&& 0xFFFFFFFF
    let rawFieldSpec := (symbolValue >>> 32) % 2 ^ 32
    let fieldSpec := if rawFieldSpec = 0x20000000 then 0 else rawFieldSpec
    Except.ok (axiAddr, fieldSpec)

/-! ## Claim C2 -/

/-- **C2 counterexample**: from a symbol file containing
`#define FOO 0x20000010` and `#define BAR 0x0010000020`, `FOO` resolves to
address `0x20000010` (not `0x10`) and `BAR` to address `0x10000020` (not
`0x20`), both with field specifier `0`: each literal fits in 32 bits, so the
high half that would carry the field descriptor (and the `0x20000000`
sentinel) is zero. -/
theorem c2_example_counterexample :
    resolveSymbol "FOO" "fpga_reg.h"
        ["#define FOO 0x20000010", "#define BAR 0x0010000020"] =
      Except.ok (0x20000010, 0) ∧
    resolveSymbol "BAR" "fpga_reg.h"
        ["#define FOO 0x20000010", "#define BAR 0x0010000020"] =
      Except.ok (0x10000020, 0) ∧
    (0x20000010 : Nat) ≠ 0x10 ∧
    (0x10000020 : Nat) ≠ 0x20 := by
  refine ⟨rfl, rfl, by decide, by decide⟩

/-- **C2** (amended): the general rule holds — the resolved 64-bit symbol
value is split into low 32 bits (register address) and high 32 bits (field
specifier), with a high half of `0x20000000` normalized to `0`; a sentinel
example needs a 64-bit literal such as `0x2000000000000010` (address `0x10`,
no field).  For the spec's 32-bit example literals the high half is already
zero, so `FOO` resolves to address `0x20000010` and `BAR` to `0x10000020`,
both with no field descriptor. -/
theorem c2_symbol_resolution_amended :
    (∀ (symbol symbolFile : String) (lines : List String) (v : Nat),
        getSymbolValue symbol symbolFile lines = Except.ok v →
          resolveSymbol symbol symbolFile lines =
            Except.ok (v &&& 0xFFFFFFFF,
              if (v >>> 32) % 2 ^ 32 = 0x20000000 then 0 else (v >>> 32) % 2 ^ 32)) ∧
    resolveSymbol "FOO" "fpga_reg.h"
        ["#define FOO 0x20000010", "#define BAR 0x0010000020"] =
      Except.ok (0x20000010, 0) ∧
    resolveSymbol "BAR" "fpga_reg.h"
        ["#define FOO 0x20000010", "#define BAR 0x0010000020"] =
      Except.ok (0x10000020, 0) ∧
    resolveSymbol "BAZ" "fpga_reg.h" ["#define BAZ 0x2000000000000010"] =
      Except.ok (0x10, 0) ∧
    getSymbolValue "FOO" "fpga_reg.h"
        ["#define FOO 0x20000010", "#define BAR 0x0010000020"] =
      Except.ok 0x20000010 := by
  refine ⟨?_, rfl, rfl, rfl, rfl⟩
  intro symbol symbolFile lines v h
  unfold resolveSymbol
  rw [h]

/-- Witness for the general split rule of C2 at a concrete one-line file. -/
theorem c2_symbol_resolution_witness :
    resolveSymbol "QUUX" "syms.h" ["#define QUUX 0x0010000000000020"] =
      Except.ok (0x20, 0x00100000) :=
  c2_symbol_resolution_amended.1 "QUUX" "syms.h" ["#define QUUX 0x0010000000000020"]
    0x0010000000000020 rfl

/-! ## Claim C9: symbol-file values are NOT underscore-stripped

`getSymbolValue` hands `token[2]` straight to `strtoull`, which stops at the
first character that is not a valid digit — in particular at the first
underscore.  The lemmas below show `strtoull0` only ever reads the characters
before the first `'_'`.
-/

theorem digitVal_underscore (base : Nat) : digitVal base '_' = none := by
  have h1 : ¬('0' ≤ '_' ∧ '_' ≤ '9') := by decide
  have h2 : ¬('a' ≤ '_' ∧ '_' ≤ 'f') := by decide
  have h3 : ¬('A' ≤ '_' ∧ '_' ≤ 'F') := by decide
  simp [digitVal, h1, h2, h3]

theorem parseDigitsAux_append_underscore (base : Nat) {l : List Char}
    (h : '_' ∉ l) (post : List Char) :
    ∀ acc, parseDigitsAux base acc (l ++ '_' :: post) = parseDigitsAux base acc l := by
  induction l with
  | nil =>
    intro acc
    show parseDigitsAux base acc ('_' :: post) = parseDigitsAux base acc []
    simp [parseDigitsAux, digitVal_underscore]
  | cons c l ih =>
    intro acc
    have hl : '_' ∉ l := fun hm => h (List.mem_cons_of_mem c hm)
    show parseDigitsAux base acc (c :: (l ++ '_' :: post)) =
        parseDigitsAux base acc (c :: l)
    cases hdv : digitVal base c with
    | none => simp [parseDigitsAux, hdv]
    | some d =>
      simp only [parseDigitsAux, hdv]
      exact ih hl _

theorem strtoullDigits_of_ne_zero {c : Char} (hc : c ≠ '0') (rest : List Char) :
    strtoullDigits (c :: rest) = parseDigitsAux 10 0 (c :: rest) := by
  unfold strtoullDigits
  split <;> simp_all

theorem strtoullDigits_zero_cons {c2 : Char} (h1 : c2 ≠ 'x') (h2 : c2 ≠ 'X')
    (rest : List Char) :
    strtoullDigits ('0' :: c2 :: rest) = parseDigitsAux 8 0 (c2 :: rest) := by
  unfold strtoullDigits
  split <;> simp_all

theorem strtoullDigits_append_underscore {l : List Char} (h : '_' ∉ l)
    (post : List Char) :
    strtoullDigits (l ++ '_' :: post) = strtoullDigits l := by
  rcases l with _ | ⟨c, l1⟩
  · show parseDigitsAux 10 0 ('_' :: post) = parseDigitsAux 10 0 []
    simp [parseDigitsAux, digitVal_underscore]
  · by_cases hc : c = '0'
    · subst hc
      rcases l1 with _ | ⟨c2, l2⟩
      · show parseDigitsAux 8 0 ('_' :: post) = parseDigitsAux 8 0 []
        simp [parseDigitsAux, digitVal_underscore]
      · have hc2 : c2 ≠ '_' := by
          intro hh
          exact h (by simp [hh])
        have hl2 : '_' ∉ l2 := fun hm => h (by simp [hm])
        by_cases hx : c2 = 'x'
        · subst hx
          rcases l2 with _ | ⟨c3, l3⟩
          · show (if (digitVal 16 '_').isSome then parseDigitsAux 16 0 ('_' :: post)
                  else 0) = parseDigitsAux 8 0 ['x']
            rw [digitVal_underscore]
            have hRHS : parseDigitsAux 8 0 ['x'] = 0 := by decide
            rw [hRHS]
            rfl
          · have hc3 : c3 ≠ '_' := by
              intro hh
              exact h (by simp [hh])
            have hl3 : '_' ∉ c3 :: l3 := by
              intro hm
              rcases List.mem_cons.mp hm with hm1 | hm2
              · exact hc3 hm1.symm
              · exact h (by simp [hm2])
            show (if (digitVal 16 c3).isSome then
                    parseDigitsAux 16 0 (c3 :: (l3 ++ '_' :: post)) else 0) =
                (if (digitVal 16 c3).isSome then parseDigitsAux 16 0 (c3 :: l3) else 0)
            by_cases hs : (digitVal 16 c3).isSome
            · rw [if_pos hs, if_pos hs]
              exact parseDigitsAux_append_underscore 16 hl3 post 0
            · rw [if_neg hs, if_neg hs]
        · by_cases hX : c2 = 'X'
          · subst hX
            rcases l2 with _ | ⟨c3, l3⟩
            · show (if (digitVal 16 '_').isSome then parseDigitsAux 16 0 ('_' :: post)
                    else 0) = parseDigitsAux 8 0 ['X']
              rw [digitVal_underscore]
              have hRHS : parseDigitsAux 8 0 ['X'] = 0 := by decide
              rw [hRHS]
              rfl
            · have hc3 : c3 ≠ '_' := by
                intro hh
                exact h (by simp [hh])
              have hl3 : '_' ∉ c3 :: l3 := by
                intro hm
                rcases List.mem_cons.mp hm with hm1 | hm2
                · exact hc3 hm1.symm
                · exact h (by simp [hm2])
              show (if (digitVal 16 c3).isSome then
                      parseDigitsAux 16 0 (c3 :: (l3 ++ '_' :: post)) else 0) =
                  (if (digitVal 16 c3).isSome then parseDigitsAux 16 0 (c3 :: l3) else 0)
              by_cases hs : (digitVal 16 c3).isSome
              · rw [if_pos hs, if_pos hs]
                exact parseDigitsAux_append_underscore 16 hl3 post 0
              · rw [if_neg hs, if_neg hs]
          · have hl12 : '_' ∉ c2 :: l2 := by
              intro hm
              rcases List.mem_cons.mp hm with hm1 | hm2
              · exact hc2 hm1.symm
              · exact h (by simp [hm2])
            have e1 : ('0' :: c2 :: l2) ++ '_' :: post =
                '0' :: c2 :: (l2 ++ '_' :: post) := rfl
            rw [e1, strtoullDigits_zero_cons hx hX, strtoullDigits_zero_cons hx hX]
            exact parseDigitsAux_append_underscore 8 hl12 post 0
    · have hl : '_' ∉ c :: l1 := h
      have e1 : (c :: l1) ++ '_' :: post = c :: (l1 ++ '_' :: post) := rfl
      rw [e1, strtoullDigits_of_ne_zero hc, strtoullDigits_of_ne_zero hc]
      exact parseDigitsAux_append_underscore 10 hl post 0

theorem skipCSpace_cons_of_space {c : Char} (h : isCSpace c = true) (s : List Char) :
    skipCSpace (c :: s) = skipCSpace s := by
  have e : skipCSpace (c :: s) =
      if isCSpace c = true then skipCSpace s else c :: s := rfl
  rw [e, if_pos h]

theorem skipCSpace_cons_of_not_space {c : Char} (h : isCSpace c = false) (s : List Char) :
    skipCSpace (c :: s) = c :: s := by
  have e : skipCSpace (c :: s) =
      if isCSpace c = true then skipCSpace s else c :: s := rfl
  rw [e, if_neg (by simp [h])]

theorem strtoull0_cons_space {c : Char} (h : isCSpace c = true) (s : List Char) :
    strtoull0 (c :: s) = strtoull0 s := by
  unfold strtoull0
  rw [skipCSpace_cons_of_space h]

theorem strtoull0_of_not_sign {c : Char} (h1 : isCSpace c = false) (h2 : c ≠ '-')
    (h3 : c ≠ '+') (s : List Char) :
    strtoull0 (c :: s) = strtoullDigits (c :: s) := by
  unfold strtoull0
  rw [skipCSpace_cons_of_not_space h1]
  split <;> simp_all

theorem strtoull0_cons_minus (s : List Char) :
    strtoull0 ('-' :: s) = (2 ^ 64 - strtoullDigits s) % 2 ^ 64 := by
  unfold strtoull0
  rw [skipCSpace_cons_of_not_space (by decide)]
  rfl

theorem strtoull0_cons_plus (s : List Char) :
    strtoull0 ('+' :: s) = strtoullDigits s := by
  unfold strtoull0
  rw [skipCSpace_cons_of_not_space (by decide)]
  rfl

/-- `strtoull` never reads past the first underscore: appending `'_' :: post`
to an underscore-free prefix does not change the parsed value. -/
theorem strtoull0_append_underscore {pre : List Char} (h : '_' ∉ pre)
    (post : List Char) :
    strtoull0 (pre ++ '_' :: post) = strtoull0 pre := by
  induction pre with
  | nil =>
    show strtoull0 ('_' :: post) = strtoull0 []
    rw [strtoull0_of_not_sign (by decide) (by decide) (by decide)]
    show parseDigitsAux 10 0 ('_' :: post) = strtoull0 []
    simp [parseDigitsAux, digitVal_underscore, strtoull0, skipCSpace, strtoullDigits]
  | cons c pre ih =>
    have hl : '_' ∉ pre := fun hm => h (List.mem_cons_of_mem c hm)
    have hc : c ≠ '_' := by
      intro hh
      exact h (by simp [hh])
    show strtoull0 (c :: (pre ++ '_' :: post)) = strtoull0 (c :: pre)
    by_cases hsp : isCSpace c = true
    · rw [strtoull0_cons_space hsp, strtoull0_cons_space hsp]
      exact ih hl
    · have hsp' : isCSpace c = false := by
        cases hb : isCSpace c
        · rfl
        · exact absurd hb hsp
      by_cases hminus : c = '-'
      · subst hminus
        rw [strtoull0_cons_minus, strtoull0_cons_minus,
          strtoullDigits_append_underscore hl]
      · by_cases hplus : c = '+'
        · subst hplus
          rw [strtoull0_cons_plus, strtoull0_cons_plus,
            strtoullDigits_append_underscore hl]
        · rw [strtoull0_of_not_sign hsp' hminus hplus,
            strtoull0_of_not_sign hsp' hminus hplus]
          have hcl : '_' ∉ c :: pre := h
          have e1 : (c :: pre) ++ '_' :: post = c :: (pre ++ '_' :: post) := rfl
          rw [← e1]
          exact strtoullDigits_append_underscore hcl post

/-- **C9**: symbol-file value parsing does not strip underscores: `strtoull`
reads only the characters before the first underscore, so the line
`#define SYMX 0x10_00` resolves to `0x10` — unlike the same literal on the
command line, where `strToBin32 "0x10_00" = 0x1000`. -/
theorem c9_symbolfile_value_stops_at_underscore :
    (∀ pre post : List Char, '_' ∉ pre →
        strtoull0 (pre ++ '_' :: post) = strtoull0 pre) ∧
    getSymbolValue "SYMX" "fpga_reg.h" ["#define SYMX 0x10_00"] = Except.ok 0x10 ∧
    strToBin32 "0x10_00" = 0x1000 ∧
    (0x10 : Nat) ≠ 0x1000 := by
  refine ⟨fun pre post h => strtoull0_append_underscore h post, rfl, by decide, by decide⟩

/-- Witness for C9's general conjunct: `strtoull` parses `"12_3"` as `12`. -/
theorem c9_witness :
    strtoull0 (['1', '2'] ++ '_' :: ['3']) = strtoull0 ['1', '2'] :=
  c9_symbolfile_value_stops_at_underscore.1 ['1', '2'] ['3'] (by decide)

/-! ## Command-line parsing (src/main.cpp lines 349–445) -/

/-- Conversion of `strtoul`'s `unsigned long` result to the `int` global
`pciRegion` (two's-complement wrap, the universal implementation-defined
behaviour). -/
def toInt32 (n : Nat) : Int :=
  if n % 2 ^ 32 < 2 ^ 31 then ((n % 2 ^ 32 : Nat) : Int)
  else ((n % 2 ^ 32 : Nat) : Int) - 2 ^ 32

/-- The global variables set by `parseCommandLine` (src/main.cpp lines
162–179). -/
structure CmdLine where
  output_mode : Nat
  wide : Bool
  pciRegion : Int
  isAxiWrite : Bool
  axiAddr : Nat
  axiData : Nat
  device : String
  symbolFile : String
  bdf : String
  symbol : String
deriving DecidableEq

/-- Initial global state: `axiAddr = 0xFFFFFFFF` is the in-band "no address
supplied" sentinel (src/main.cpp line 171), `pciRegion = -1`,
everything else zero/empty/false. -/
def initCmdLine : CmdLine :=
  { output_mode := 0, wide := false, pciRegion := -1, isAxiWrite := false,
    axiAddr := 0xFFFFFFFF, axiData := 0, device := "", symbolFile := "",
    bdf := "", symbol := "" }

/-- The token loop of `parseCommandLine` (src/main.cpp lines 361–441).
`argv` is the argument list after the program name; a missing flag argument
takes the `showHelp()` path, modelled as `Except.error ()`.  The first
positional argument goes to `axiAddr` if it starts with a digit and to
`symbol` otherwise; every later positional argument goes to `axiData` and
sets `isAxiWrite`. -/
def parseLoop : List String → Nat → CmdLine → Except Unit CmdLine
  | [], _, st => Except.ok st
  | tok :: rest, index, st =>
    if tok = "-r" then
      match rest with
      | [] => Except.error ()
      | t :: rest' =>
        parseLoop rest' index { st with pciRegion := toInt32 (strtoull0 t.toList) }
    else if tok = "-d" then
      match rest with
      | [] => Except.error ()
      | t :: rest' => parseLoop rest' index { st with device := t }
    else if tok = "-bdf" then
      match rest with
      | [] => Except.error ()
      | t :: rest' => parseLoop rest' index { st with bdf := t }
    else if tok = "-dec" then
      parseLoop rest index { st with output_mode := st.output_mode ||| 1 }
    else if tok = "-hex" then
      parseLoop rest index { st with output_mode := st.output_mode ||| 2 }
    else if tok = "-wide" then
      parseLoop rest index { st with wide := true }
    else if tok = "-sym" then
      match rest with
      | [] => Except.error ()
      | t :: rest' => parseLoop rest' index { st with symbolFile := t }
    else
      if index + 1 = 1 then
        match tok.toList with
        | c :: _ =>
          if '0' ≤ c ∧ c ≤ '9' then
            parseLoop rest (index + 1) { st with axiAddr := strToBin32 tok }
          else
            parseLoop rest (index + 1) { st with symbol := tok }
        | [] => parseLoop rest (index + 1) { st with symbol := tok }
      else
        parseLoop rest (index + 1)
          { st with axiData := strToBin64 tok, isAxiWrite := true }

/-- `parseCommandLine` (src/main.cpp lines 357–445): run the token loop,
then `if ((axiAddr == 0xFFFFFFFF) & symbol.empty()) showHelp();` — the
missing-address check. -/
def parseCommandLine (argv : List String) : Except Unit CmdLine :=
  match parseLoop argv 0 initCmdLine with
  | Except.error () => Except.error ()
  | Except.ok st =>
    if st.axiAddr = 0xFFFFFFFF ∧ st.symbol = "" then Except.error ()
    else Except.ok st

/-! ## Claim C10 -/

/-- **C10**: `0xFFFFFFFF` is an in-band "no address" sentinel.  Any parse
that succeeds with no symbol has `axiAddr ≠ 0xFFFFFFFF`, so a numeric
address equal to `0xFFFFFFFF` can never reach the bounds check or the
register access; concretely, invocations whose only positional argument
parses to `0xFFFFFFFF` take the usage/help path (exit code 1). -/
theorem c10_sentinel_address :
    (∀ (argv : List String) (st : CmdLine),
        parseCommandLine argv = Except.ok st → st.symbol = "" →
          st.axiAddr ≠ 0xFFFFFFFF) ∧
    parseCommandLine ["0xFFFFFFFF"] = Except.error () ∧
    parseCommandLine ["0xFFFF_FFFF", "123"] = Except.error () ∧
    parseCommandLine ["4294967295"] = Except.error () ∧
    strToBin32 "0xFFFFFFFF" = 0xFFFFFFFF := by
  refine ⟨?_, rfl, rfl, rfl, by decide⟩
  intro argv st h hsym
  unfold parseCommandLine at h
  cases hp : parseLoop argv 0 initCmdLine with
  | error e =>
    rw [hp] at h
    cases e
    exact absurd h (by simp)
  | ok st0 =>
    rw [hp] at h
    dsimp only at h
    by_cases hc : st0.axiAddr = 0xFFFFFFFF ∧ st0.symbol = ""
    · rw [if_pos hc] at h
      exact absurd h (by simp)
    · rw [if_neg hc] at h
      have hst : st0 = st := by
        injection h
      subst hst
      intro haddr
      exact hc ⟨haddr, hsym⟩

/-- Witness for C10: parsing the single numeric address `"0x10"` succeeds
with `axiAddr = 16 ≠ 0xFFFFFFFF`. -/
theorem c10_witness :
    ({ output_mode := 0, wide := false, pciRegion := -1, isAxiWrite := false,
       axiAddr := 16, axiData := 0, device := "", symbolFile := "",
       bdf := "", symbol := "" } : CmdLine).axiAddr ≠ 0xFFFFFFFF :=
  c10_sentinel_address.1 ["0x10"]
    { output_mode := 0, wide := false, pciRegion := -1, isAxiWrite := false,
      axiAddr := 16, axiData := 0, device := "", symbolFile := "",
      bdf := "", symbol := "" } rfl rfl
